import Mathlib

/-!
Verification of the papertool artifact download pipeline.

The Go sources embedded here:
  - statuswriter.go : the StatusWriter write-observer (byte counter, SHA-256
    accumulator, throttled progress output);
  - the Download function : pre-flight destination handling, streamed copy
    through a StatusWriter, post-transfer checksum comparison;
  - metadata.go : the Builds/Build records and FindBuildIndex/FindBuild.

Modelling conventions:
  - bytes are natural numbers; only their identity and count matter here (the
    SHA-256 compression function lives in the external crypto/sha256 library,
    so the embedding records the exact byte stream fed to the accumulator and
    abstracts the finalisation step as a function of that stream);
  - Go int64 arithmetic is embedded as Int with explicit two registers wrap
    (wrap64), matching two-complement overflow;
  - effects on the outside world (os.Stat, os.Remove, the HTTP download
    stream, progress lines) are made explicit: outcomes of the environment are
    inputs, and the calls the code performs are returned as a trace.
-/

/-- A byte of the transferred stream. -/
abbrev Byte := Nat

/-- Modelled from the spec: the repository helper `String` is declared outside
the files under src (only its call sites are visible). At every call site it
renders a possibly-nil pointer, and a nil pointer must render as the empty
string (FindBuildIndex compares it against already-excluded arguments, and the
CLI prints it for absent fields). On a non-nil string pointer it yields the
pointed-to string. -/
def GoString : Option String → String
  | none => ""
  | some s => s

/-- Two-complement wrap-around of Go int64 arithmetic. -/
def wrap64 (z : Int) : Int := (z + 2 ^ 63) % 2 ^ 64 - 2 ^ 63

/-- statuswriter.go, type StatusWriter.  The printer and number-format fields
only shape the text of progress lines and the start-time field only feeds the
displayed throughput; neither influences any claim, so the emitted trace keeps
the cumulative byte count at each emission instead of the rendered line.  The
sha256 field is the byte stream fed to the accumulator so far, in order. -/
structure StatusWriter where
  last : Int
  total : Int
  name : String
  quiet : Bool
  sha256 : List Byte
  emitted : List Int
deriving DecidableEq

/-- statuswriter.go, NewStatusWriter: zeroed counters, fresh hash state. -/
def NewStatusWriter (name : String) (quiet : Bool) : StatusWriter :=
  { last := 0, total := 0, name := name, quiet := quiet, sha256 := [], emitted := [] }

/-- statuswriter.go, func (sw *StatusWriter) Write(data []byte) (int, error).
The counter and the accumulator are updated first; a progress line is emitted
only outside quiet mode and only when the counter has moved 256*1000 bytes
past the last emission mark, in which case the mark moves to the counter.
The call always returns len(data) and a nil error. -/
def StatusWriter.Write (sw : StatusWriter) (data : List Byte) : StatusWriter × Int × Option String :=
  let total := wrap64 (sw.total + (data.length : Int))
  let acc := sw.sha256 ++ data
  if sw.quiet then
    ({ sw with total := total, sha256 := acc }, (data.length : Int), none)
  else if 256 * 1000 ≤ wrap64 (total - sw.last) then
    ({ sw with total := total, sha256 := acc, last := total, emitted := sw.emitted ++ [total] },
      (data.length : Int), none)
  else
    ({ sw with total := total, sha256 := acc }, (data.length : Int), none)

/-- A sequence of Write calls, as produced by the streaming copy driving the
StatusWriter chunk by chunk. -/
def writeAll (sw : StatusWriter) (chunks : List (List Byte)) : StatusWriter :=
  chunks.foldl (fun s data => (s.Write data).1) sw

/-- metadata.go, type Application: the artifact descriptor inside "downloads",
with nilable JSON fields as options. -/
structure Application where
  name : Option String
  sha256 : Option String
deriving DecidableEq

/-- metadata.go, type Artifact: the "downloads" object holding the
application descriptor. -/
structure Artifact where
  application : Option Application
deriving DecidableEq

/-- Outcome of os.Stat on the destination path: success (the file exists), an
error satisfying os.IsNotExist, or any other stat error. -/
inductive StatOutcome where
  | found
  | notFound
  | statErr (msg : String)
deriving DecidableEq

/-- External calls Download performs, in order: stat of the destination,
removal of the destination, and the streaming HTTP GET issued by
dlstream.DownloadStream. -/
inductive Effect where
  | statFS (path : String)
  | removeFS (path : String)
  | httpGet (url : String)
deriving DecidableEq

/-- Outcomes the environment supplies to one Download call: the stat result
for the destination, whether os.Remove fails (some message) or succeeds, and
the download stream result - an error, or the chunk sequence the copy feeds
through the StatusWriter before returning nil. -/
structure Env where
  stat : StatOutcome
  removeErr : Option String
  stream : Except String (List (List Byte))

/-- The distinct errors Download can return, one constructor per fmt.Errorf
site (transferFailed is the error of dlstream.DownloadStream, returned
unchanged). -/
inductive DownloadError where
  | badArtifact
  | destinationExists (dst : String)
  | removeFailed (dst msg : String)
  | statFailed (dst msg : String)
  | transferFailed (msg : String)
  | checksumMismatch (dst computed expected : String)
deriving DecidableEq

/-- The text each error renders to, mirroring the fmt.Errorf format strings. -/
def DownloadError.message : DownloadError → String
  | .badArtifact => "bad artifact"
  | .destinationExists dst => dst ++ ": already exists and -replace not specified"
  | .removeFailed dst msg => "remove " ++ dst ++ ": " ++ msg
  | .statFailed dst msg => "stat " ++ dst ++ ": " ++ msg
  | .transferFailed msg => msg
  | .checksumMismatch dst computed expected =>
      dst ++ ": sha256 mismatch " ++ computed ++ " expected " ++ expected

/-- What one Download call produced: the returned error (none on success), the
trace of external calls in order, and the final StatusWriter when the copy
completed. -/
structure DownloadResult where
  error : Option DownloadError
  trace : List Effect
  writer : Option StatusWriter
deriving DecidableEq

/-- download.go, the transfer and post-transfer part of Download, after the
pre-flight destination handling: build the StatusWriter, run the streamed
copy, print the summary, then compare digests.  hashHex is the lowercase hex
rendering fmt.Sprintf of sw.sha256.Sum(nil), abstracted as a function of the
byte stream the accumulator received (the compression function is the
external crypto/sha256 library).  An empty expected checksum skips the
comparison; otherwise inequality yields the mismatch error carrying both
digests. -/
def transferPhase (src dst : String) (preTrace : List Effect) (expectedSha : Option String)
    (quiet : Bool) (env : Env) (hashHex : List Byte → String) : DownloadResult :=
  let sw0 := NewStatusWriter (src ++ " to " ++ dst) quiet
  match env.stream with
  | .error msg =>
    { error := some (.transferFailed msg), trace := preTrace ++ [.httpGet src], writer := none }
  | .ok chunks =>
    let sw := writeAll sw0 chunks
    let hash := hashHex sw.sha256
    let expected := GoString expectedSha
    if expected = "" then
      { error := none, trace := preTrace ++ [.httpGet src], writer := some sw }
    else if hash ≠ expected then
      { error := some (.checksumMismatch dst hash expected),
        trace := preTrace ++ [.httpGet src], writer := some sw }
    else
      { error := none, trace := preTrace ++ [.httpGet src], writer := some sw }

/-- download.go, func Download.  Guard against a nil artifact chain, build the
source URL and destination path, stat the destination (refusing to overwrite
without replace, removing with replace, propagating other stat errors), then
stream and verify via transferPhase. -/
def Download (serverURL project version build : String) (artifact : Option Artifact)
    (dstdir : String) (replace quiet : Bool) (env : Env)
    (hashHex : List Byte → String) : DownloadResult :=
  match artifact with
  | none => { error := some .badArtifact, trace := [], writer := none }
  | some a =>
    match a.application with
    | none => { error := some .badArtifact, trace := [], writer := none }
    | some app =>
      match app.name with
      | none => { error := some .badArtifact, trace := [], writer := none }
      | some _ =>
        let src := serverURL ++ "/v2/projects/" ++ project ++ "/versions/" ++ version
            ++ "/builds/" ++ build ++ "/downloads/" ++ GoString app.name
        let dst := dstdir ++ "/" ++ GoString app.name
        match env.stat with
        | .found =>
          if !replace then
            { error := some (.destinationExists dst), trace := [.statFS dst], writer := none }
          else
            match env.removeErr with
            | some msg =>
              { error := some (.removeFailed dst msg),
                trace := [.statFS dst, .removeFS dst], writer := none }
            | none =>
              transferPhase src dst [.statFS dst, .removeFS dst] app.sha256 quiet env hashHex
        | .statErr msg =>
          { error := some (.statFailed dst msg), trace := [.statFS dst], writer := none }
        | .notFound =>
          transferPhase src dst [.statFS dst] app.sha256 quiet env hashHex

/-- metadata.go, type Build.  The build number arrives as a JSON number
(*float64 in Go) and FindBuildIndex only ever uses its rendering through the
String helper; the embedding stores that rendering (none for a nil pointer,
which the helper renders as the empty string).  The changes list and the
artifact do not take part in any claim and are omitted. -/
structure Build where
  projectID : Option String
  projectName : Option String
  build : Option String
  time : Option String
  channel : Option String
  promoted : Option Bool
deriving DecidableEq

/-- metadata.go, type Builds.  Build pointers in the list are taken non-nil,
as the metadata endpoint produces them. -/
structure Builds where
  projectID : Option String
  projectName : Option String
  version : Option String
  builds : List Build
deriving DecidableEq

/-- metadata.go, the range loop of FindBuildIndex: the index of the first
build whose rendered build number equals the argument, with i the index of
the head of the remaining list. -/
def findBuildLoop (l : List Build) (build : String) (i : Nat) : Int :=
  match l with
  | [] => -1
  | b :: rest =>
    if GoString b.build = build then (i : Int) else findBuildLoop rest build (i + 1)

/-- metadata.go, func (builds *Builds) FindBuildIndex(build string) int. -/
def Builds.FindBuildIndex (builds : Builds) (build : String) : Int :=
  if builds.builds.length = 0 then -1
  else if build = "" ∨ build = "latest" then (builds.builds.length : Int) - 1
  else if build = "first" then 0
  else findBuildLoop builds.builds build 0

/-- metadata.go, func (builds *Builds) FindBuild(build string) *Build: nil for
a negative index, the indexed build otherwise (Go would panic out of range;
the total getter returns none there, and the index is proved in range). -/
def Builds.FindBuild (builds : Builds) (build : String) : Option Build :=
  let i := builds.FindBuildIndex build
  if i < 0 then none else builds.builds[i.toNat]?

lemma wrap64_eq_self (z : Int) (h1 : -(2 ^ 63) ≤ z) (h2 : z < 2 ^ 63) : wrap64 z = z := by
  have h0 : (0 : Int) ≤ z + 2 ^ 63 := by linarith
  have hlt : z + 2 ^ 63 < 2 ^ 64 := by
    have h : (2 : Int) ^ 64 = 2 ^ 63 + 2 ^ 63 := by norm_num
    linarith
  unfold wrap64
  rw [Int.emod_eq_of_lt h0 hlt]
  ring

lemma Write_fst_total (sw : StatusWriter) (data : List Byte) :
    ((sw.Write data).1).total = wrap64 (sw.total + (data.length : Int)) := by
  unfold StatusWriter.Write
  by_cases hq : sw.quiet <;> simp [hq]
  split <;> rfl

lemma Write_fst_sha256 (sw : StatusWriter) (data : List Byte) :
    ((sw.Write data).1).sha256 = sw.sha256 ++ data := by
  unfold StatusWriter.Write
  by_cases hq : sw.quiet <;> simp [hq]
  split <;> rfl

lemma writeAll_nil (sw : StatusWriter) : writeAll sw [] = sw := rfl

lemma writeAll_cons (sw : StatusWriter) (c : List Byte) (cs : List (List Byte)) :
    writeAll sw (c :: cs) = writeAll ((sw.Write c).1) cs := rfl

/-- The digest accumulator receives exactly the chunks, concatenated in
order, regardless of counters, quiet mode or emissions. -/
lemma writeAll_sha256 :
    ∀ (chunks : List (List Byte)) (sw : StatusWriter),
      (writeAll sw chunks).sha256 = sw.sha256 ++ chunks.flatten := by
  intro chunks
  induction chunks with
  | nil => intro sw; simp [writeAll]
  | cons c cs ih =>
    intro sw
    rw [writeAll_cons, ih, Write_fst_sha256]
    simp

/-- As long as the running counter stays inside int64 range, a sequence of
writes adds exactly the chunk lengths to it. -/
lemma writeAll_total :
    ∀ (chunks : List (List Byte)) (sw : StatusWriter),
      0 ≤ sw.total →
      sw.total + ((chunks.map List.length).sum : Int) < 2 ^ 63 →
      (writeAll sw chunks).total = sw.total + ((chunks.map List.length).sum : Int) := by
  intro chunks
  induction chunks with
  | nil => intro sw _ _; simp [writeAll]
  | cons c cs ih =>
    intro sw h0 hb
    have hsumNat : ((c :: cs).map List.length).sum = c.length + (cs.map List.length).sum := by
      simp
    rw [hsumNat] at hb ⊢
    rw [Nat.cast_add] at hb ⊢
    have hrest : (0 : Int) ≤ ((cs.map List.length).sum : Int) := by positivity
    have hc : (0 : Int) ≤ (c.length : Int) := by positivity
    have hb1 : sw.total + (c.length : Int) < 2 ^ 63 := by linarith
    have hstep : ((sw.Write c).1).total = sw.total + (c.length : Int) := by
      rw [Write_fst_total]
      exact wrap64_eq_self _ (by linarith) hb1
    rw [writeAll_cons,
      ih ((sw.Write c).1) (by rw [hstep]; linarith) (by rw [hstep]; linarith), hstep]
    ring

/-- The counter and the accumulator after a run depend only on the counter and
the accumulator before it - not on quiet mode, the emission mark or past
emissions. -/
lemma writeAll_congr :
    ∀ (chunks : List (List Byte)) (a b : StatusWriter),
      a.total = b.total → a.sha256 = b.sha256 →
      (writeAll a chunks).total = (writeAll b chunks).total ∧
      (writeAll a chunks).sha256 = (writeAll b chunks).sha256 := by
  intro chunks
  induction chunks with
  | nil => intro a b ht hs; exact ⟨ht, hs⟩
  | cons c cs ih =>
    intro a b ht hs
    rw [writeAll_cons a, writeAll_cons b]
    refine ih _ _ ?_ ?_
    · rw [Write_fst_total, Write_fst_total, ht]
    · rw [Write_fst_sha256, Write_fst_sha256, hs]

lemma sum_take_le (l : List Nat) (i : Nat) : (l.take i).sum ≤ l.sum := by
  induction l generalizing i with
  | nil => simp
  | cons a as ih =>
    cases i with
    | zero => simp
    | succ n => simpa using Nat.add_le_add_left (ih n) a

/-- The range loop of FindBuildIndex either misses every build, or lands on
the first matching index, offset by the starting counter. -/
lemma findBuildLoop_spec :
    ∀ (l : List Build) (build : String) (i : Nat),
      (findBuildLoop l build i = -1 ∧ ∀ b ∈ l, GoString b.build ≠ build) ∨
      (∃ k b, l[k]? = some b ∧ GoString b.build = build ∧
        findBuildLoop l build i = ((i + k : Nat) : Int) ∧
        ∀ j b', j < k → l[j]? = some b' → GoString b'.build ≠ build) := by
  intro l
  induction l with
  | nil => intro build i; exact Or.inl ⟨rfl, by simp⟩
  | cons b0 rest ih =>
    intro build i
    by_cases h : GoString b0.build = build
    · refine Or.inr ⟨0, b0, by simp, h, ?_, ?_⟩
      · simp [findBuildLoop, h]
      · intro j b' hj
        exact absurd hj (Nat.not_lt_zero j)
    · rcases ih build (i + 1) with ⟨hm, hall⟩ | ⟨k, b, hget, hb, hloop, hfirst⟩
      · refine Or.inl ⟨?_, ?_⟩
        · simp [findBuildLoop, h, hm]
        · intro x hx
          rcases List.mem_cons.mp hx with hx0 | hxr
          · rw [hx0]; exact h
          · exact hall x hxr
      · refine Or.inr ⟨k + 1, b, by simpa using hget, hb, ?_, ?_⟩
        · have harith : ((i + (k + 1) : Nat) : Int) = ((i + 1 + k : Nat) : Int) := by
            congr 1
            omega
          rw [harith]
          simp only [findBuildLoop, h, if_false]
          rw [← hloop]
        · intro j b' hj hget'
          cases j with
          | zero =>
            have hb0 : b' = b0 := by simpa using hget'.symm
            rw [hb0]
            exact h
          | succ j2 =>
            exact hfirst j2 b' (by omega) (by simpa using hget')

/-- FindBuildIndex either fails with -1 or returns an in-range index. -/
lemma FindBuildIndex_cases (bs : Builds) (build : String) :
    bs.FindBuildIndex build = -1 ∨
    ∃ k : Nat, k < bs.builds.length ∧ bs.FindBuildIndex build = (k : Int) := by
  unfold Builds.FindBuildIndex
  by_cases hlen : bs.builds.length = 0
  · simp [hlen]
  · by_cases hlatest : build = "" ∨ build = "latest"
    · refine Or.inr ⟨bs.builds.length - 1, by omega, ?_⟩
      simp [hlen, hlatest]
      omega
    · by_cases hfirst : build = "first"
      · exact Or.inr ⟨0, by omega, by simp [hlen, hlatest, hfirst]⟩
      · rcases findBuildLoop_spec bs.builds build 0 with ⟨hm, _⟩ | ⟨k, b, hget, _, hloop, _⟩
        · exact Or.inl (by simp [hlen, hlatest, hfirst, hm])
        · refine Or.inr ⟨k, ?_, ?_⟩
          · exact (List.getElem?_eq_some.mp hget).1
          · simp only [hlen, hlatest, hfirst, if_false]
            rw [hloop]
            simp

/-- C3: over any sequence of chunks fed to StatusWriter.Write, the byte
counter ends at the sum of the chunk lengths, the SHA-256 accumulator
receives exactly those chunks concatenated in order (no truncation, gap or
duplication), and the counter never decreases across calls - provided the
int64 counter never overflows, which holds for every physically realizable
stream (total below 2^63 bytes). -/
theorem C3_counter_matches_digest_stream (name : String) (quiet : Bool)
    (chunks : List (List Byte))
    (hb : ((chunks.map List.length).sum : Int) < 2 ^ 63) :
    (writeAll (NewStatusWriter name quiet) chunks).total
        = ((chunks.map List.length).sum : Int) ∧
    (writeAll (NewStatusWriter name quiet) chunks).sha256 = chunks.flatten ∧
    ∀ i j : Nat, i ≤ j →
      (writeAll (NewStatusWriter name quiet) (chunks.take i)).total ≤
        (writeAll (NewStatusWriter name quiet) (chunks.take j)).total := by
  refine ⟨?_, ?_, ?_⟩
  · have h := writeAll_total chunks (NewStatusWriter name quiet)
      (by simp [NewStatusWriter]) (by simpa [NewStatusWriter] using hb)
    simpa [NewStatusWriter] using h
  · simpa [NewStatusWriter] using writeAll_sha256 chunks (NewStatusWriter name quiet)
  · intro i j hij
    have hmt : ∀ k : Nat, (writeAll (NewStatusWriter name quiet) (chunks.take k)).total
        = (((chunks.map List.length).take k).sum : Int) := by
      intro k
      have hsub : (((chunks.take k).map List.length).sum : Int)
          ≤ ((chunks.map List.length).sum : Int) := by
        rw [List.map_take]
        exact_mod_cast sum_take_le _ _
      have h := writeAll_total (chunks.take k) (NewStatusWriter name quiet)
        (by simp [NewStatusWriter])
        (by simp only [NewStatusWriter]; linarith [hsub, hb])
      rw [h]
      simp [NewStatusWriter, List.map_take]
    rw [hmt i, hmt j]
    have hle : ((chunks.map List.length).take i).sum ≤ ((chunks.map List.length).take j).sum := by
      have h1 : (chunks.map List.length).take i = ((chunks.map List.length).take j).take i := by
        rw [List.take_take, Nat.min_eq_left hij]
      rw [h1]
      exact sum_take_le _ _
    exact_mod_cast hle

/-- C7: quiet mode changes neither the byte counter nor the digest
accumulator: two runs over the same chunks, one quiet and one not, end with
identical totals and identical accumulated byte streams. -/
theorem C7_quiet_mode_noninterference (name : String) (chunks : List (List Byte)) :
    (writeAll (NewStatusWriter name true) chunks).total
        = (writeAll (NewStatusWriter name false) chunks).total ∧
    (writeAll (NewStatusWriter name true) chunks).sha256
        = (writeAll (NewStatusWriter name false) chunks).sha256 :=
  writeAll_congr chunks _ _ rfl rfl

/-- C9: StatusWriter.Write always returns the full input length and a nil
error, so a copy wrapped over it can never abort because of the observer. -/
theorem C9_write_returns_length_no_error (sw : StatusWriter) (data : List Byte) :
    (sw.Write data).2 = ((data.length : Int), none) := by
  unfold StatusWriter.Write
  by_cases hq : sw.quiet <;> simp [hq]
  split <;> rfl

/-- C6: in non-quiet mode a single Write emits a progress line exactly when
the updated cumulative count has moved at least 256,000 bytes past the last
emission mark, and emitting moves the mark to the current count; below the
threshold neither the emission trace nor the mark changes.  Counters are
assumed inside int64 range, as on every reachable state. -/
theorem C6_emission_threshold (sw : StatusWriter) (data : List Byte)
    (hq : sw.quiet = false) (h0 : 0 ≤ sw.last) (h1 : sw.last ≤ sw.total)
    (hb : sw.total + (data.length : Int) < 2 ^ 63) :
    (256 * 1000 ≤ sw.total + (data.length : Int) - sw.last →
      ((sw.Write data).1).emitted = sw.emitted ++ [sw.total + (data.length : Int)] ∧
      ((sw.Write data).1).last = sw.total + (data.length : Int)) ∧
    (sw.total + (data.length : Int) - sw.last < 256 * 1000 →
      ((sw.Write data).1).emitted = sw.emitted ∧
      ((sw.Write data).1).last = sw.last) := by
  have hlen : (0 : Int) ≤ (data.length : Int) := by positivity
  have htot : wrap64 (sw.total + (data.length : Int)) = sw.total + (data.length : Int) :=
    wrap64_eq_self _ (by linarith) hb
  have hsub : wrap64 (sw.total + (data.length : Int) - sw.last)
      = sw.total + (data.length : Int) - sw.last :=
    wrap64_eq_self _ (by linarith) (by linarith)
  constructor
  · intro hth
    unfold StatusWriter.Write
    simp only [hq, Bool.false_eq_true, if_false, htot, hsub, if_pos hth]
    exact ⟨trivial, trivial⟩
  · intro hth
    unfold StatusWriter.Write
    simp only [hq, Bool.false_eq_true, if_false, htot, hsub, if_neg (not_le.mpr hth)]
    exact ⟨trivial, trivial⟩

/-- The trace of the transfer part is always the pre-flight trace followed by
the one HTTP request, whatever the stream outcome and digest comparison. -/
lemma transferPhase_trace (src dst : String) (preTrace : List Effect)
    (expectedSha : Option String) (quiet : Bool) (env : Env)
    (hashHex : List Byte → String) :
    (transferPhase src dst preTrace expectedSha quiet env hashHex).trace
      = preTrace ++ [.httpGet src] := by
  unfold transferPhase
  rcases hs : env.stream with msg | chunks
  · rfl
  · simp only
    split_ifs <;> rfl

/-- C1: with a non-empty expected checksum and a completed streaming copy,
Download succeeds exactly when the hex digest of the streamed bytes equals
the expected string (plain string equality, hence case-sensitive), and on
inequality it returns the mismatch error carrying both the computed and the
expected digest. -/
theorem C1_checksum_verification (serverURL project version build nm sha dstdir : String)
    (replace quiet : Bool) (env : Env) (hashHex : List Byte → String)
    (chunks : List (List Byte))
    (hreach : env.stat = .notFound ∨ (env.stat = .found ∧ replace = true ∧ env.removeErr = none))
    (hstream : env.stream = .ok chunks) (hsha : sha ≠ "") :
    ((Download serverURL project version build (some ⟨some ⟨some nm, some sha⟩⟩) dstdir replace
        quiet env hashHex).error = none ↔ hashHex chunks.flatten = sha) ∧
    (hashHex chunks.flatten ≠ sha →
      (Download serverURL project version build (some ⟨some ⟨some nm, some sha⟩⟩) dstdir replace
          quiet env hashHex).error
        = some (.checksumMismatch (dstdir ++ "/" ++ nm) (hashHex chunks.flatten) sha)) := by
  have hflat : ∀ s q, (writeAll (NewStatusWriter s q) chunks).sha256 = chunks.flatten := by
    intro s q
    simpa [NewStatusWriter] using writeAll_sha256 chunks (NewStatusWriter s q)
  rcases hreach with hstat | ⟨hstat, hrep, hrem⟩
  · by_cases hh : hashHex chunks.flatten = sha <;>
      simp [Download, transferPhase, hstat, hstream, GoString, hflat, hsha, hh]
  · subst hrep
    by_cases hh : hashHex chunks.flatten = sha <;>
      simp [Download, transferPhase, hstat, hstream, hrem, GoString, hflat, hsha, hh]

/-- C2: with an empty or absent expected checksum and a completed streaming
copy, Download succeeds with no digest comparison, whatever the content. -/
theorem C2_empty_checksum_skips_verification (serverURL project version build nm dstdir : String)
    (shaOpt : Option String) (replace quiet : Bool) (env : Env)
    (hashHex : List Byte → String) (chunks : List (List Byte))
    (hreach : env.stat = .notFound ∨ (env.stat = .found ∧ replace = true ∧ env.removeErr = none))
    (hstream : env.stream = .ok chunks) (hsha : GoString shaOpt = "") :
    (Download serverURL project version build (some ⟨some ⟨some nm, shaOpt⟩⟩) dstdir replace
        quiet env hashHex).error = none := by
  rcases hreach with hstat | ⟨hstat, hrep, hrem⟩
  · simp [Download, transferPhase, hstat, hstream, hsha]
  · subst hrep
    simp [Download, transferPhase, hstat, hstream, hrem, hsha]

/-- C4, amended: an artifact missing its name (a nil artifact, nil
application or nil name pointer) makes Download fail with the bad-artifact
error and an empty effect trace: no stat, no removal and no HTTP request
happen.  The guard checks only for nil, so an artifact carrying a present
but empty name passes it; see the counterexample below. -/
theorem C4_bad_artifact_fails_first (serverURL project version build dstdir : String)
    (replace quiet : Bool) (env : Env) (hashHex : List Byte → String)
    (artifact : Option Artifact)
    (hbad : artifact = none
      ∨ ∃ a, artifact = some a ∧ (a.application = none
          ∨ ∃ app, a.application = some app ∧ app.name = none)) :
    Download serverURL project version build artifact dstdir replace quiet env hashHex
      = { error := some .badArtifact, trace := [], writer := none } := by
  rcases hbad with h | ⟨a, ha, h | ⟨app, happ, hname⟩⟩
  · rw [h]
    rfl
  · subst ha
    simp [Download, h]
  · subst ha
    simp [Download, happ, hname]

/-- Counterexample to C4 as stated: an artifact whose name is present but
empty does not carry a non-empty name, yet it passes the nil-only guard, so
Download goes on to stat the destination (filesystem activity) and returns
the destination-exists error rather than the bad-artifact error. -/
theorem C4_empty_name_counterexample :
    (Download "s" "p" "v" "b" (some ⟨some ⟨some "", none⟩⟩) "d" false false
        ⟨.found, none, .ok []⟩ (fun _ => "")).error ≠ some .badArtifact ∧
    (Download "s" "p" "v" "b" (some ⟨some ⟨some "", none⟩⟩) "d" false false
        ⟨.found, none, .ok []⟩ (fun _ => "")).trace
      = [.statFS ("d" ++ "/" ++ "")] := by
  constructor
  · decide
  · decide

/-- C5: when the destination file exists and overwrite was not requested,
Download fails with the destination-exists error after the stat alone: the
trace shows no removal and no HTTP request, so the file is untouched and the
network is never contacted. -/
theorem C5_destination_exists_no_network (serverURL project version build nm : String)
    (shaOpt : Option String) (dstdir : String) (quiet : Bool) (env : Env)
    (hashHex : List Byte → String) (hstat : env.stat = .found) :
    Download serverURL project version build (some ⟨some ⟨some nm, shaOpt⟩⟩) dstdir false quiet
        env hashHex
      = { error := some (.destinationExists (dstdir ++ "/" ++ nm)),
          trace := [.statFS (dstdir ++ "/" ++ nm)], writer := none } := by
  simp [Download, hstat, GoString]

/-- Whenever the pre-flight checks pass, the Download trace is some prefix of
filesystem effects followed by exactly one HTTP request, for the source URL
built from the server base and the artifact name. -/
lemma Download_trace_reach (serverURL project version build nm : String)
    (shaOpt : Option String) (dstdir : String) (replace quiet : Bool) (env : Env)
    (hashHex : List Byte → String)
    (hreach : env.stat = .notFound ∨ (env.stat = .found ∧ replace = true ∧ env.removeErr = none)) :
    ∃ pre : List Effect,
      (Download serverURL project version build (some ⟨some ⟨some nm, shaOpt⟩⟩) dstdir replace
          quiet env hashHex).trace
        = pre ++ [.httpGet (serverURL ++ "/v2/projects/" ++ project ++ "/versions/" ++ version
            ++ "/builds/" ++ build ++ "/downloads/" ++ nm)] ∧
      ∀ u, Effect.httpGet u ∉ pre := by
  rcases hreach with hstat | ⟨hstat, hrep, hrem⟩
  · refine ⟨[.statFS (dstdir ++ "/" ++ nm)], ?_, by simp⟩
    simp only [Download, hstat, GoString]
    rw [transferPhase_trace]
  · subst hrep
    refine ⟨[.statFS (dstdir ++ "/" ++ nm), .removeFS (dstdir ++ "/" ++ nm)], ?_, by simp⟩
    simp only [Download, hstat, hrem, GoString, Bool.not_true, Bool.false_eq_true, if_false]
    rw [transferPhase_trace]

/-- C8: whenever a valid artifact lets Download reach the transfer, the one
HTTP request it issues is for exactly
serverBase/v2/projects/P/versions/V/builds/B/downloads/NAME, and no request
with any other URL ever appears in the trace. -/
theorem C8_source_url_shape (serverURL project version build nm : String)
    (shaOpt : Option String) (dstdir : String) (replace quiet : Bool) (env : Env)
    (hashHex : List Byte → String)
    (hreach : env.stat = .notFound ∨ (env.stat = .found ∧ replace = true ∧ env.removeErr = none)) :
    Effect.httpGet (serverURL ++ "/v2/projects/" ++ project ++ "/versions/" ++ version
        ++ "/builds/" ++ build ++ "/downloads/" ++ nm)
      ∈ (Download serverURL project version build (some ⟨some ⟨some nm, shaOpt⟩⟩) dstdir replace
          quiet env hashHex).trace ∧
    ∀ u, Effect.httpGet u ∈ (Download serverURL project version build
        (some ⟨some ⟨some nm, shaOpt⟩⟩) dstdir replace quiet env hashHex).trace →
      u = serverURL ++ "/v2/projects/" ++ project ++ "/versions/" ++ version
        ++ "/builds/" ++ build ++ "/downloads/" ++ nm := by
  obtain ⟨pre, htr, hpre⟩ := Download_trace_reach serverURL project version build nm shaOpt
    dstdir replace quiet env hashHex hreach
  constructor
  · rw [htr]
    simp
  · intro u hu
    rw [htr] at hu
    rcases List.mem_append.mp hu with hin | hone
    · exact absurd hin (hpre u)
    · simpa using hone

/-- C10: FindBuildIndex returns -1 on an empty list; on a non-empty list it
returns the last index for the empty or latest argument, 0 for first, the
index of the first build whose rendered build number equals the argument
otherwise, and -1 when nothing matches; FindBuild is nil exactly when the
index is -1 and otherwise is the build at that in-range index. -/
theorem C10_find_build_index (bs : Builds) (build : String) :
    (bs.builds.length = 0 → bs.FindBuildIndex build = -1) ∧
    (bs.builds.length ≠ 0 → (build = "" ∨ build = "latest") →
      bs.FindBuildIndex build = (bs.builds.length : Int) - 1) ∧
    (bs.builds.length ≠ 0 → ¬(build = "" ∨ build = "latest") → build = "first" →
      bs.FindBuildIndex build = 0) ∧
    (bs.builds.length ≠ 0 → ¬(build = "" ∨ build = "latest") → build ≠ "first" →
      ((∃ (k : Nat) (b : Build), bs.builds[k]? = some b ∧ GoString b.build = build ∧
          bs.FindBuildIndex build = (k : Int) ∧
          ∀ (j : Nat) (b' : Build), j < k → bs.builds[j]? = some b' →
            GoString b'.build ≠ build) ∨
        (bs.FindBuildIndex build = -1 ∧ ∀ b ∈ bs.builds, GoString b.build ≠ build))) ∧
    (bs.FindBuild build = none ↔ bs.FindBuildIndex build = -1) ∧
    (∀ k : Nat, bs.FindBuildIndex build = (k : Int) →
      k < bs.builds.length ∧ bs.FindBuild build = bs.builds[k]?) := by
  refine ⟨?_, ?_, ?_, ?_, ?_, ?_⟩
  · intro hlen
    simp [Builds.FindBuildIndex, hlen]
  · intro hlen hl
    simp [Builds.FindBuildIndex, hlen, hl]
  · intro hlen hl hf
    simp [Builds.FindBuildIndex, hlen, hl, hf]
  · intro hlen hl hf
    have hidx : bs.FindBuildIndex build = findBuildLoop bs.builds build 0 := by
      simp [Builds.FindBuildIndex, hlen, hl, hf]
    rcases findBuildLoop_spec bs.builds build 0 with ⟨hm, hall⟩ | ⟨k, b, hget, hb, hloop, hfirst⟩
    · exact Or.inr ⟨by rw [hidx, hm], hall⟩
    · refine Or.inl ⟨k, b, hget, hb, ?_, ?_⟩
      · rw [hidx, hloop]
        simp
      · intro j b' hj hget'
        exact hfirst j b' hj hget'
  · rcases FindBuildIndex_cases bs build with hneg | ⟨k, hk, hpos⟩
    · constructor
      · intro _
        exact hneg
      · intro _
        simp [Builds.FindBuild, hneg]
    · constructor
      · intro hnone
        unfold Builds.FindBuild at hnone
        rw [hpos] at hnone
        simp only at hnone
        rw [if_neg (by omega), Int.toNat_natCast, List.getElem?_eq_getElem hk] at hnone
        exact absurd hnone (Option.some_ne_none _)
      · intro h1
        rw [h1] at hpos
        omega
  · intro k hpos
    have hk : k < bs.builds.length := by
      rcases FindBuildIndex_cases bs build with hneg | ⟨j, hj, hjpos⟩
      · rw [hpos] at hneg
        omega
      · rw [hpos] at hjpos
        have hkj : k = j := by exact_mod_cast hjpos
        omega
    refine ⟨hk, ?_⟩
    unfold Builds.FindBuild
    rw [hpos]
    simp only
    rw [if_neg (by omega), Int.toNat_natCast]

/-- Witness for C1 at a concrete run whose digest matches the expected
checksum. -/
theorem C1_checksum_verification_witness :
    (Download "s" "p" "v" "b" (some ⟨some ⟨some "n", some "aa"⟩⟩) "d" false false
        ⟨.notFound, none, .ok [[1]]⟩ (fun _ => "aa")).error = none :=
  ((C1_checksum_verification "s" "p" "v" "b" "n" "aa" "d" false false
      ⟨.notFound, none, .ok [[1]]⟩ (fun _ => "aa") [[1]]
      (Or.inl rfl) rfl (by decide)).1).mpr rfl

/-- Witness for C2 at a concrete run with an absent checksum. -/
theorem C2_empty_checksum_skips_verification_witness :
    (Download "s" "p" "v" "b" (some ⟨some ⟨some "n", none⟩⟩) "d" false false
        ⟨.notFound, none, .ok [[1], [2, 3]]⟩ (fun _ => "zz")).error = none :=
  C2_empty_checksum_skips_verification "s" "p" "v" "b" "n" "d" none false false
    ⟨.notFound, none, .ok [[1], [2, 3]]⟩ (fun _ => "zz") [[1], [2, 3]]
    (Or.inl rfl) rfl rfl

/-- Witness for C3 on a concrete two-chunk stream. -/
theorem C3_counter_matches_digest_stream_witness :
    (writeAll (NewStatusWriter "n" false) [[0], [1, 2]]).total = 3 ∧
    (writeAll (NewStatusWriter "n" false) [[0], [1, 2]]).sha256 = [0, 1, 2] := by
  have h := C3_counter_matches_digest_stream "n" false [[0], [1, 2]] (by decide)
  refine ⟨?_, ?_⟩
  · rw [h.1]
    decide
  · rw [h.2.1]
    rfl

/-- Witness for C4 on a nil artifact. -/
theorem C4_bad_artifact_fails_first_witness :
    Download "s" "p" "v" "b" none "d" false false ⟨.notFound, none, .ok []⟩ (fun _ => "")
      = { error := some .badArtifact, trace := [], writer := none } :=
  C4_bad_artifact_fails_first "s" "p" "v" "b" "d" false false ⟨.notFound, none, .ok []⟩
    (fun _ => "") none (Or.inl rfl)

/-- Witness for C5 on a concrete pre-existing destination. -/
theorem C5_destination_exists_no_network_witness :
    Download "s" "p" "v" "b" (some ⟨some ⟨some "n", some "cc"⟩⟩) "d" false false
        ⟨.found, none, .ok []⟩ (fun _ => "")
      = { error := some (.destinationExists ("d" ++ "/" ++ "n")),
          trace := [.statFS ("d" ++ "/" ++ "n")], writer := none } :=
  C5_destination_exists_no_network "s" "p" "v" "b" "n" (some "cc") "d" false
    ⟨.found, none, .ok []⟩ (fun _ => "") rfl

/-- Witness for C6 on a state one byte short of the threshold. -/
theorem C6_emission_threshold_witness :
    ((StatusWriter.Write ⟨0, 255999, "n", false, [], []⟩ [7]).1).emitted = [256000] ∧
    ((StatusWriter.Write ⟨0, 255999, "n", false, [], []⟩ [7]).1).last = 256000 := by
  have h := (C6_emission_threshold ⟨0, 255999, "n", false, [], []⟩ [7] rfl (by decide)
      (by decide) (by decide)).1 (by decide)
  refine ⟨?_, ?_⟩
  · rw [h.1]
    decide
  · rw [h.2]
    decide

/-- Witness for C8 on a concrete invocation (stream fails, the request was
still issued for the exact URL). -/
theorem C8_source_url_shape_witness :
    Effect.httpGet ("s" ++ "/v2/projects/" ++ "p" ++ "/versions/" ++ "v"
        ++ "/builds/" ++ "b" ++ "/downloads/" ++ "n")
      ∈ (Download "s" "p" "v" "b" (some ⟨some ⟨some "n", none⟩⟩) "d" false false
          ⟨.notFound, none, .error "boom"⟩ (fun _ => "")).trace :=
  (C8_source_url_shape "s" "p" "v" "b" "n" none "d" false false
      ⟨.notFound, none, .error "boom"⟩ (fun _ => "") (Or.inl rfl)).1

/-- Witness for C10 on an empty build list. -/
theorem C10_find_build_index_witness :
    (Builds.mk none none none []).FindBuildIndex "latest" = -1 :=
  (C10_find_build_index ⟨none, none, none, []⟩ "latest").1 rfl
